import Mathlib

/-!
Verification development for the proofwell-agent treasury loop.

The definitions below are a shallow embedding of the TypeScript source:
stable-asset (USDC) amounts are natural numbers in micro-units (6 decimals)
where the source keeps `bigint` raw units, and rationals where the source
computes with JavaScript numbers on whole-USDC figures; timestamps are
naturals (Unix seconds, or milliseconds where noted); the append-only
ledger is a list of write records; asynchronous effects are modelled as
explicit state passing.
-/

/-- A single append-only ledger write, mirroring the three SQLite insert
helpers `logAction`, `logRevenue`, `logCost` in the state module. -/
inductive LedgerWrite where
  | action (ty : List Char) (description : List Char) (amountUsdc : ℚ) (success : Bool)
  | revenue (source : List Char) (amountUsdc : ℚ)
  | cost (category : List Char) (amountUsdc : ℚ)
deriving DecidableEq, Repr

/-- V3 stake record as read by `getStake` in actions/proofwell.ts.
`amount` is in raw token units (micro-USDC when `isUSDC`). -/
structure StakeInfo where
  user : Nat
  stakeId : Nat
  amount : Nat
  startTimestamp : Nat
  durationDays : Nat
  successfulDays : Nat
  claimed : Bool
  isUSDC : Bool
deriving DecidableEq, Repr

/-- `SECONDS_PER_DAY` constant in actions/proofwell.ts (demo value). -/
def SECONDS_PER_DAY : Nat := 300

/-- `RESOLUTION_BUFFER` constant in actions/proofwell.ts (demo value). -/
def RESOLUTION_BUFFER : Nat := 0

/-- `isResolvable` from actions/proofwell.ts: false for claimed or
zero-amount stakes, otherwise true iff `now` is strictly past the stake
end plus the resolution buffer.  The source reads the clock internally;
here `now` is an explicit parameter. -/
def isResolvable (stake : StakeInfo) (now : Nat) : Bool :=
  if stake.claimed || stake.amount == 0 then false
  else
    let stakeEnd := stake.startTimestamp + stake.durationDays * SECONDS_PER_DAY
    now > stakeEnd + RESOLUTION_BUFFER

/-- `getActiveStakes` from actions/proofwell.ts: the source enumerates
stake ids 0..nextId-1 and keeps records with `amount > 0 && !claimed`.
Here the enumerated records are the input list. -/
def getActiveStakes (stakes : List StakeInfo) : List StakeInfo :=
  stakes.filter (fun s => s.amount > 0 && !s.claimed)

/-- The stakes targeted by resolution Decisions in Rule 2 of
`deterministicDecisions`: open stakes for which `isResolvable` holds. -/
def resolvableStakes (stakes : List StakeInfo) (now : Nat) : List StakeInfo :=
  (getActiveStakes stakes).filter (fun s => isResolvable s now)

/-- Rule 1 of `deterministicDecisions` (idle-balance deployment): when the
liquid Aave-side USDC balance exceeds `idleUsdcThreshold`, one deposit
Decision for `balance - threshold / 2` is pushed (bigint floor division),
otherwise none.  Amounts are micro-USDC naturals. -/
def rule1IdleDeposit (aaveUsdcBalance idleUsdcThreshold : Nat) : Option Nat :=
  if aaveUsdcBalance > idleUsdcThreshold then
    some (aaveUsdcBalance - idleUsdcThreshold / 2)
  else
    none

/-! ## Yield-detection state machine (Rule 0 and the position cursor)

Rule 0 of `deterministicDecisions` compares the current Aave position to
the stored `last_aave_position` cursor, logs an `aave_yield` RevenueEvent
when the delta is strictly between one micro-USDC and one USDC, and then
rewrites the cursor; the deposit / withdraw execute closures re-read the
position and rewrite the cursor immediately after moving principal. -/

/-- The source guard `yieldUsdc > 0.000001 && yieldUsdc < 1.0` where
`yieldUsdc = delta / 10^6`: in micro-USDC units, `1 < delta ∧ delta < 10^6`.
(Both comparisons are exact at these magnitudes, so the float arithmetic
of the source agrees with this integer form.) -/
def yieldWindow (delta : Nat) : Bool :=
  decide (1 < delta) && decide (delta < 1000000)

/-- The yield window as the specification words it: a half-open interval
`(ε, 1.0]` of stable-asset units, i.e. one micro-unit excluded and one
whole unit included.  Stated from the spec for comparison with the
source-derived `yieldWindow`. -/
def specYieldWindow (delta : Nat) : Bool :=
  decide (1 < delta) && decide (delta ≤ 1000000)

/-- The `aave_yield` RevenueEvent amounts Rule 0 appends for a stored
cursor `cursor` and current position `pos` (micro-USDC).  The source
only runs the comparison when a cursor string is stored (`if
(lastAavePosition)`), and only when `aavePosition > prev`. -/
def rule0Events (cursor : Option Nat) (pos : Nat) : List Nat :=
  match cursor with
  | none => []
  | some prev =>
      if pos > prev && yieldWindow (pos - prev) then [pos - prev] else []

/-- Agent state relevant to yield tracking: the lending position, the
`last_aave_position` cursor, the amounts of appended `aave_yield`
RevenueEvents, and a ghost total of true accrued interest. -/
structure YieldState where
  pos : Nat
  cursor : Option Nat
  logged : List Nat
  interest : Nat
deriving DecidableEq, Repr

/-- Atomic events acting on the yield-tracking state:
`accrue` is interest credited by the pool between observations;
`cycleEval` is one evaluation of Rule 0 (log-then-rewrite-cursor);
`execDeposit` / `execWithdraw` are the deposit and withdraw decision
execute closures, which move principal and immediately re-read the
position into the cursor. -/
inductive YOp where
  | accrue (y : Nat)
  | cycleEval
  | execDeposit (x : Nat)
  | execWithdraw (x : Nat)
deriving DecidableEq, Repr

/-- One step of the yield-tracking state machine, transcribing Rule 0 and
the execute closures of `deterministicDecisions` / `llmDecision`. -/
def ystep (s : YieldState) : YOp → YieldState
  | YOp.accrue y =>
      { s with pos := s.pos + y, interest := s.interest + y }
  | YOp.cycleEval =>
      { s with logged := s.logged ++ rule0Events s.cursor s.pos,
               cursor := some s.pos }
  | YOp.execDeposit x =>
      { s with pos := s.pos + x, cursor := some (s.pos + x) }
  | YOp.execWithdraw x =>
      { s with pos := s.pos - x, cursor := some (s.pos - x) }

/-- Run a sequence of yield-tracking events. -/
def yrun (s : YieldState) (ops : List YOp) : YieldState :=
  ops.foldl ystep s

/-- Initial state at position `p` with the cursor already written
(as every state after the first `cycleEval` is). -/
def yinit (p : Nat) : YieldState :=
  { pos := p, cursor := some p, logged := [], interest := 0 }

/-- Total micro-USDC recorded as `aave_yield` revenue. -/
def sumLogged (s : YieldState) : Nat := s.logged.sum

/-- Per-cycle view of a run, matching the spec's "sequence of yield deltas
and deposit/withdraw decisions": a cycle that observes interest `y`
accrued since the last cursor write, a cycle with no accrual, or a
deposit / withdraw execution. -/
inductive GOp where
  | yieldCycle (y : Nat)
  | quietCycle
  | deposit (x : Nat)
  | withdraw (x : Nat)
deriving DecidableEq, Repr

/-- Expansion of the per-cycle view into atomic events. -/
def gexpand : GOp → List YOp
  | GOp.yieldCycle y => [YOp.accrue y, YOp.cycleEval]
  | GOp.quietCycle => [YOp.cycleEval]
  | GOp.deposit x => [YOp.execDeposit x]
  | GOp.withdraw x => [YOp.execWithdraw x]

/-- Run a per-cycle sequence from the initialized state. -/
def grun (p : Nat) (gops : List GOp) : YieldState :=
  yrun (yinit p) (gops.map gexpand).flatten

/-! ## Rule 2: expired-stake resolution -/

/-- `GAS_COST_ESTIMATE_USD` from the decision engine. -/
def GAS_COST_ESTIMATE_USD : ℚ := 5 / 1000

/-- `failedDays` computed in Rule 2: `Number(stake.durationDays -
stake.successfulDays)` on bigints, i.e. an exact integer difference. -/
def resolveFailedDays (stake : StakeInfo) : Int :=
  (stake.durationDays : Int) - (stake.successfulDays : Int)

/-- `treasuryRevenue` computed in Rule 2: `amount * 0.4` in whole USDC
(`Number(formatUnits(amount, 6)) * forfeitRate`) when the stake is USDC
and `failedDays > 0`, else 0.  `stake.amount` is micro-USDC, so the
whole-USDC figure is `amount / 10^6` as a rational. -/
def resolveForfeiture (stake : StakeInfo) : ℚ :=
  let forfeitRate : ℚ := if resolveFailedDays stake > 0 then 2 / 5 else 0
  if stake.isUSDC then ((stake.amount : ℚ) / 1000000) * forfeitRate else 0

/-- The ledger writes performed by the `resolve_expired` execute closure
when the on-chain `resolveExpiredV3` call succeeds: one ActionRecord
(success defaults to true), a `treasury_slash` RevenueEvent iff the
forfeiture is positive, and a gas CostEvent. -/
def resolveExecWrites (stake : StakeInfo) : List LedgerWrite :=
  [LedgerWrite.action "resolve_expired".toList "resolved expired stake".toList
      (resolveForfeiture stake) true]
  ++ (if resolveForfeiture stake > 0 then
        [LedgerWrite.revenue "treasury_slash".toList (resolveForfeiture stake)]
      else [])
  ++ [LedgerWrite.cost "gas".toList GAS_COST_ESTIMATE_USD]

/-! ## Advisory decision module (`llmDecision`) -/

/-- `config.llmCallIntervalMs` (1 hour). -/
def llmCallIntervalMs : Nat := 3600000

/-- The provider response content after the call completes, as the code
inspects it: missing content, content that `JSON.parse` rejects, or a
parsed object.  `amountUsdc = none` models a field that is not a finite
number (`typeof !== "number" || !isFinite`). -/
inductive LlmContent where
  | noContent
  | unparsable
  | parsed (action : List Char) (amountUsdc : Option ℚ) (reason : List Char)
deriving DecidableEq, Repr

/-- Environment of one `llmDecision` invocation.  `providerResp = none`
models a provider call that throws (network / API failure) before
completing; `some c` a completed call returning content `c`. -/
structure LlmEnv where
  hasApiKey : Bool
  lastLlmCall : Option Nat
  now : Nat
  providerResp : Option LlmContent
deriving DecidableEq, Repr

/-- Result of one `llmDecision` invocation: whether a Decision was
produced (and which action tag), the CostEvents appended, and the stored
`last_llm_call` value afterwards. -/
structure LlmResult where
  decision : Option (List Char)
  costs : List LedgerWrite
  lastLlmCall : Option Nat
deriving DecidableEq, Repr

/-- The rate-limit gate at the top of `llmDecision`: short-circuits iff a
stored timestamp exists and `now - stored < llmCallIntervalMs`. -/
def llmGatePasses (lastLlmCall : Option Nat) (now : Nat) : Bool :=
  match lastLlmCall with
  | none => true
  | some t => !decide ((now : Int) - (t : Int) < (llmCallIntervalMs : Int))

/-- Validation of a parsed provider response (the body of `llmDecision`
after `logCost` / `setState`): action "none" yields no Decision; the
amount must be a finite positive number; a deposit must fit in the liquid
Aave-side USDC balance and a withdraw in the Aave position (both
micro-USDC); anything else yields no Decision. -/
def llmValidate (content : LlmContent) (aaveUsdcBalance aavePosition : Nat) :
    Option (List Char) :=
  match content with
  | LlmContent.noContent => none
  | LlmContent.unparsable => none
  | LlmContent.parsed action amountUsdc _ =>
      if action = "none".toList then none
      else
        match amountUsdc with
        | none => none
        | some a =>
            if a ≤ 0 then none
            else
              let amountRaw : Int := Int.floor (a * 1000000)
              if action = "deposit".toList ∧ 0 < amountRaw ∧
                  amountRaw ≤ (aaveUsdcBalance : Int) then
                some "llm_deposit".toList
              else if action = "withdraw".toList ∧ 0 < amountRaw ∧
                  amountRaw ≤ (aavePosition : Int) then
                some "llm_withdraw".toList
              else none

/-- `llmDecision` as a pure function over its environment and the gathered
balances.  A completed provider call logs the fixed model-inference
CostEvent (`logCost("llm", 0.0001, ...)`) and rewrites `last_llm_call`
before any parsing or validation; a call that throws logs nothing. -/
def llmDecision (env : LlmEnv) (aaveUsdcBalance aavePosition : Nat) : LlmResult :=
  if !env.hasApiKey then
    { decision := none, costs := [], lastLlmCall := env.lastLlmCall }
  else if !llmGatePasses env.lastLlmCall env.now then
    { decision := none, costs := [], lastLlmCall := env.lastLlmCall }
  else
    match env.providerResp with
    | none =>
        { decision := none, costs := [], lastLlmCall := env.lastLlmCall }
    | some content =>
        { decision := llmValidate content aaveUsdcBalance aavePosition,
          costs := [LedgerWrite.cost "llm".toList (1 / 10000)],
          lastLlmCall := some env.now }

/-! ## Decision execution and per-decision error isolation -/

/-- The error shape `sanitizeError` inspects: viem errors expose an
optional `shortMessage`, and otherwise a free-form `message`. -/
structure ErrInfo where
  shortMessage : Option (List Char)
  message : List Char
deriving DecidableEq, Repr

/-- Whitespace as matched by the `\s*` in the Details regex. -/
def isWsChar (c : Char) : Bool :=
  c = ' ' || c = '\t' || c = '\n' || c = '\r'

/-- The `msg.match(/Details:\s*(.+)/)` capture: the first line fragment
following a "Details:" marker, leading whitespace stripped; `none` when
no such fragment with at least one character exists. -/
def detailsAfter : List Char → Option (List Char)
  | [] => none
  | c :: rest =>
      if List.isPrefixOf "Details:".toList (c :: rest) then
        let tl := (((c :: rest).drop 8).dropWhile isWsChar).takeWhile
          (fun ch => !(ch = '\n'))
        if tl.isEmpty then detailsAfter rest else some tl
      else detailsAfter rest

/-- `sanitizeError` from the decision engine: prefer the viem
`shortMessage`, else the "Details:" line of the verbose message, else the
raw message — in every case truncated to 120 characters. -/
def sanitizeError (e : ErrInfo) : List Char :=
  match e.shortMessage with
  | some s => s.take 120
  | none =>
      match detailsAfter e.message with
      | some d => d.take 120
      | none => e.message.take 120

/-- The outcome of a Decision's execute closure: the ledger writes it
performs on success, or the error it throws. -/
inductive ExecOutcome where
  | ok (writes : List LedgerWrite)
  | err (e : ErrInfo)
deriving DecidableEq, Repr

/-- A Decision as the cycle loop sees it: the action tag and the
behaviour of its execute closure. -/
structure DecisionM where
  action : List Char
  outcome : ExecOutcome
deriving DecidableEq, Repr

/-- The failed ActionRecord written by the catch branch of the cycle
loop: `logAction(d.action, FAILED: sanitizeError(e), undefined, 0, 0,
false)`. -/
def failedRecord (d : DecisionM) (e : ErrInfo) : LedgerWrite :=
  LedgerWrite.action d.action ("FAILED: ".toList ++ sanitizeError e) 0 false

/-- Ledger writes of one attempted Decision inside its try/catch boundary:
on success the closure's writes, on a throw exactly the failed
ActionRecord. -/
def execWrites (d : DecisionM) : List LedgerWrite :=
  match d.outcome with
  | ExecOutcome.ok ws => ws
  | ExecOutcome.err e => [failedRecord d e]

/-- The ledger writes of `runDecisionCycle` over its produced Decisions:
the loop attempts every Decision in order, each inside its own try/catch,
so the cycle's writes are the concatenation of every Decision's writes. -/
def runDecisionCycle (ds : List DecisionM) : List LedgerWrite :=
  match ds with
  | [] => []
  | d :: rest => execWrites d ++ runDecisionCycle rest

/-! ## Discipline score (attestation endpoint) -/

/-- `successRate` in `buildAttestation` (api/server.ts variant):
`totalDuration > 0 ? Math.min(totalSuccessful / totalDuration, 1) : 0`. -/
def successRateOf (totalSuccessful totalDuration : Nat) : ℚ :=
  if 0 < totalDuration then
    min ((totalSuccessful : ℚ) / (totalDuration : ℚ)) 1
  else 0

/-- `disciplineScore` in `buildAttestation`:
`Math.round(successRate * 100 * (0.5 + 0.5 * Math.min(totalDays / 30, 1)))`.
JavaScript `Math.round` and Mathlib `round` both round half away from
zero upward, so they agree on these nonnegative values. -/
def disciplineScore (successRate : ℚ) (totalDays : Nat) : ℤ :=
  round (successRate * 100 * (1 / 2 + 1 / 2 * min ((totalDays : ℚ) / 30) 1))

/-! ## Attestation endpoint (status and ledger writes) -/

/-- Hex digit as matched by the address regex. -/
def isHexChar (c : Char) : Bool :=
  ('0' ≤ c && c ≤ '9') || ('a' ≤ c && c ≤ 'f') || ('A' ≤ c && c ≤ 'F')

/-- viem `isAddress` on the syntactic fragment the endpoint relies on:
`0x` followed by exactly 40 hex digits.  (viem additionally verifies the
EIP-55 checksum of mixed-case inputs; all-lowercase addresses and all
malformed strings are classified identically by both.) -/
def isAddress (s : List Char) : Bool :=
  s.length = 42 && List.isPrefixOf "0x".toList s && (s.drop 2).all isHexChar

/-- Outcome of the stake-history fetch inside the handler's try block:
the enumerated stakes, or a thrown RPC error. -/
inductive FetchOutcome where
  | ok (stakes : List StakeInfo)
  | err
deriving DecidableEq, Repr

/-- HTTP status and ledger writes of one attestation request. -/
structure HandlerResult where
  status : Nat
  writes : List LedgerWrite
deriving DecidableEq, Repr

/-- `attestationHandler` (api/server.ts variant), restricted to its
status code and ledger writes: a malformed wallet address answers 400
before anything else; a fetch error answers 503 from the catch block; on
success a fixed 0.01-USDC `x402_attestation` RevenueEvent is appended
exactly when the `x-payment-receipt` header is present. -/
def attestationHandler (wallet : List Char) (hasPaymentReceipt : Bool)
    (fetch : FetchOutcome) : HandlerResult :=
  if !isAddress wallet then
    { status := 400, writes := [] }
  else
    match fetch with
    | FetchOutcome.err => { status := 503, writes := [] }
    | FetchOutcome.ok _ =>
        { status := 200,
          writes :=
            if hasPaymentReceipt then
              [LedgerWrite.revenue "x402_attestation".toList (1 / 100)]
            else [] }

/-! ## Auxiliary counting helpers over ledger writes -/

/-- Number of ActionRecords in a list of ledger writes. -/
def countActionRecords (ws : List LedgerWrite) : Nat :=
  ws.countP (fun w => match w with
    | LedgerWrite.action _ _ _ _ => true
    | _ => false)

/-- Number of successful ActionRecords in a list of ledger writes. -/
def countSuccessActions (ws : List LedgerWrite) : Nat :=
  ws.countP (fun w => match w with
    | LedgerWrite.action _ _ _ success => success
    | _ => false)

/-- The amounts of `treasury_slash` RevenueEvents in a list of ledger
writes, in order. -/
def treasurySlashEvents (ws : List LedgerWrite) : List ℚ :=
  ws.filterMap (fun w => match w with
    | LedgerWrite.revenue src amt =>
        if src = "treasury_slash".toList then some amt else none
    | _ => none)

/-- The stake of the spec scenario: duration 10 days, 7 successful days,
USDC, amount 100 USDC (100000000 micro-units). -/
def demoStake : StakeInfo :=
  { user := 1, stakeId := 0, amount := 100000000, startTimestamp := 0,
    durationDays := 10, successfulDays := 7, claimed := false, isUSDC := true }

/-! ## Helper lemmas -/

lemma runDecisionCycle_append (l₁ l₂ : List DecisionM) :
    runDecisionCycle (l₁ ++ l₂) = runDecisionCycle l₁ ++ runDecisionCycle l₂ := by
  induction l₁ with
  | nil => simp [runDecisionCycle]
  | cons d rest ih => simp [runDecisionCycle, ih]

lemma round_mono_q {x y : ℚ} (h : x ≤ y) : round x ≤ round y := by
  rw [round_eq, round_eq]
  exact Int.floor_le_floor (by linarith)

/-- Soundness invariant for the yield-tracking machine: the cursor is
written, never ahead of the position, and the untracked gap plus all
logged yield is covered by true interest. -/
def YInv (s : YieldState) : Prop :=
  ∃ c, s.cursor = some c ∧ c ≤ s.pos ∧ (s.pos - c) + sumLogged s ≤ s.interest

lemma sumLogged_append (s : YieldState) (l : List Nat) :
    ({ s with logged := s.logged ++ l } : YieldState).cursor = s.cursor ∧
    sumLogged { s with logged := s.logged ++ l } = sumLogged s + l.sum := by
  constructor
  · rfl
  · simp [sumLogged]

lemma ystep_accrue (s : YieldState) (y : Nat) :
    ystep s (YOp.accrue y) =
      { s with pos := s.pos + y, interest := s.interest + y } := rfl

lemma ystep_cycleEval (s : YieldState) :
    ystep s YOp.cycleEval =
      { s with logged := s.logged ++ rule0Events s.cursor s.pos,
               cursor := some s.pos } := rfl

lemma ystep_execDeposit (s : YieldState) (x : Nat) :
    ystep s (YOp.execDeposit x) =
      { s with pos := s.pos + x, cursor := some (s.pos + x) } := rfl

lemma ystep_execWithdraw (s : YieldState) (x : Nat) :
    ystep s (YOp.execWithdraw x) =
      { s with pos := s.pos - x, cursor := some (s.pos - x) } := rfl

lemma rule0Events_sum_le (c pos : Nat) :
    (rule0Events (some c) pos).sum ≤ pos - c := by
  unfold rule0Events
  by_cases hgt : (decide (pos > c) && yieldWindow (pos - c)) = true
  · simp [hgt]
  · simp [hgt]

lemma ystep_inv (s : YieldState) (op : YOp) (h : YInv s) : YInv (ystep s op) := by
  obtain ⟨c, hc, hcp, hsum⟩ := h
  cases op with
  | accrue y =>
      rw [ystep_accrue]
      refine ⟨c, hc, by simp; omega, ?_⟩
      simp [sumLogged] at hsum ⊢
      omega
  | cycleEval =>
      rw [ystep_cycleEval]
      have hrule : (rule0Events s.cursor s.pos).sum ≤ s.pos - c := by
        rw [hc]; exact rule0Events_sum_le c s.pos
      refine ⟨s.pos, rfl, by simp, ?_⟩
      simp [sumLogged] at hsum ⊢
      omega
  | execDeposit x =>
      rw [ystep_execDeposit]
      refine ⟨s.pos + x, rfl, le_refl _, ?_⟩
      simp [sumLogged] at hsum ⊢
      omega
  | execWithdraw x =>
      rw [ystep_execWithdraw]
      refine ⟨s.pos - x, rfl, le_refl _, ?_⟩
      simp [sumLogged] at hsum ⊢
      omega

lemma yrun_inv (ops : List YOp) (s : YieldState) (h : YInv s) : YInv (yrun s ops) := by
  induction ops generalizing s with
  | nil => exact h
  | cons op rest ih =>
      have : yrun s (op :: rest) = yrun (ystep s op) rest := by
        simp [yrun]
      rw [this]
      exact ih _ (ystep_inv s op h)

lemma yinit_inv (p : Nat) : YInv (yinit p) :=
  ⟨p, rfl, le_refl _, by simp [yinit, sumLogged]⟩

/-- Completeness invariant: the cursor equals the position and logged
yield equals accrued interest. -/
def GInv (s : YieldState) : Prop :=
  s.cursor = some s.pos ∧ sumLogged s = s.interest

lemma rule0Events_self (c : Nat) : rule0Events (some c) c = [] := by
  simp [rule0Events]

lemma rule0Events_window (c pos : Nat) (h1 : c < pos)
    (hw : yieldWindow (pos - c) = true) :
    rule0Events (some c) pos = [pos - c] := by
  simp [rule0Events, h1, hw]

lemma gstep_inv (s : YieldState) (g : GOp)
    (hwin : ∀ y, g = GOp.yieldCycle y → yieldWindow y = true)
    (h : GInv s) : GInv (yrun s (gexpand g)) := by
  obtain ⟨hc, hs⟩ := h
  cases g with
  | yieldCycle y =>
      have hw : yieldWindow y = true := hwin y rfl
      have hy : 1 < y := by
        unfold yieldWindow at hw
        simp at hw
        exact hw.1
      show GInv (ystep (ystep s (YOp.accrue y)) YOp.cycleEval)
      rw [ystep_accrue, ystep_cycleEval]
      have hev : rule0Events (some s.pos) (s.pos + y) = [y] := by
        have h2 : s.pos + y - s.pos = y := by omega
        rw [rule0Events_window s.pos (s.pos + y) (by omega) (by rw [h2]; exact hw), h2]
      refine ⟨rfl, ?_⟩
      simp only [hc, hev]
      simp [sumLogged] at hs ⊢
      omega
  | quietCycle =>
      show GInv (ystep s YOp.cycleEval)
      rw [ystep_cycleEval]
      refine ⟨rfl, ?_⟩
      simp only [hc, rule0Events_self]
      simpa [sumLogged] using hs
  | deposit x =>
      show GInv (ystep s (YOp.execDeposit x))
      rw [ystep_execDeposit]
      exact ⟨rfl, by simpa [sumLogged] using hs⟩
  | withdraw x =>
      show GInv (ystep s (YOp.execWithdraw x))
      rw [ystep_execWithdraw]
      exact ⟨rfl, by simpa [sumLogged] using hs⟩

lemma yrun_append (s : YieldState) (l₁ l₂ : List YOp) :
    yrun s (l₁ ++ l₂) = yrun (yrun s l₁) l₂ := by
  simp [yrun, List.foldl_append]

lemma grun_inv (gops : List GOp) (s : YieldState)
    (hwin : ∀ y, GOp.yieldCycle y ∈ gops → yieldWindow y = true)
    (h : GInv s) : GInv (yrun s (gops.map gexpand).flatten) := by
  induction gops generalizing s with
  | nil => simpa [yrun] using h
  | cons g rest ih =>
      have h1 : GInv (yrun s (gexpand g)) :=
        gstep_inv s g (fun y hy => hwin y (by rw [hy]; exact List.mem_cons_self _ _)) h
      have h2 : ∀ y, GOp.yieldCycle y ∈ rest → yieldWindow y = true :=
        fun y hy => hwin y (List.mem_cons_of_mem _ hy)
      have : ((g :: rest).map gexpand).flatten = gexpand g ++ (rest.map gexpand).flatten := by
        simp
      rw [this, yrun_append]
      exact ih _ h2 h1

/-! ## Claim theorems -/

/-- C1: a stake record with `claimed = true` (settled) or `amount = 0` is
never a resolution target: `isResolvable` rejects it at every clock
reading, the open-stake enumeration filters it out, and the resolution
rule over any snapshot containing it produces no Decision targeting it. -/
theorem settled_stake_never_resolved (stakes : List StakeInfo) (now : Nat)
    (s : StakeInfo) (h : s.claimed = true ∨ s.amount = 0) :
    isResolvable s now = false ∧ s ∉ getActiveStakes stakes ∧
      s ∉ resolvableStakes stakes now := by
  have hres : isResolvable s now = false := by
    rcases h with h | h <;> simp [isResolvable, h]
  refine ⟨hres, ?_, ?_⟩
  · intro hmem
    rw [getActiveStakes, List.mem_filter] at hmem
    rcases h with h | h <;> simp [h] at hmem
  · intro hmem
    rw [resolvableStakes, List.mem_filter] at hmem
    rw [hres] at hmem
    exact absurd hmem.2 (by simp)

theorem settled_stake_never_resolved_witness :
    isResolvable ⟨7, 0, 100, 0, 10, 7, true, true⟩ 10000 = false ∧
    (⟨7, 0, 100, 0, 10, 7, true, true⟩ : StakeInfo) ∉
      getActiveStakes [⟨7, 0, 100, 0, 10, 7, true, true⟩] ∧
    (⟨7, 0, 100, 0, 10, 7, true, true⟩ : StakeInfo) ∉
      resolvableStakes [⟨7, 0, 100, 0, 10, 7, true, true⟩] 10000 :=
  settled_stake_never_resolved [⟨7, 0, 100, 0, 10, 7, true, true⟩] 10000
    ⟨7, 0, 100, 0, 10, 7, true, true⟩ (Or.inl rfl)

/-- C2 counterexample: with the cursor initialized, a single true
interest accrual of 2 USDC (2000000 micro-units) followed by a cycle
evaluation appends zero lending-yield RevenueEvents, so the cumulative
lending-yield total (0) differs from the sum of true accrued interest
(2000000): the code's 1-USDC cap silently drops the delta. -/
theorem yield_total_counterexample :
    (yrun (yinit 0) [YOp.accrue 2000000, YOp.cycleEval]).interest = 2000000 ∧
    sumLogged (yrun (yinit 0) [YOp.accrue 2000000, YOp.cycleEval]) = 0 := by
  constructor <;> rfl

/-- C2 (amended): (1) along any per-cycle sequence of yield deltas and
deposit/withdraw executions whose observed per-cycle deltas all lie in
the detection window, the cumulative lending-yield total equals the sum
of true accrued interest; (2) along every event sequence whatsoever the
cumulative lending-yield total never exceeds true accrued interest, so
principal movements are never counted as yield; (3) depositing X and
then observing the position increase by exactly X appends zero
lending-yield RevenueEvents. -/
theorem yield_total_amended :
    (∀ p gops, (∀ y, GOp.yieldCycle y ∈ gops → yieldWindow y = true) →
        sumLogged (grun p gops) = (grun p gops).interest)
    ∧ (∀ p ops, sumLogged (yrun (yinit p) ops) ≤ (yrun (yinit p) ops).interest)
    ∧ (∀ p x,
        (yrun (yinit p) [YOp.execDeposit x, YOp.cycleEval]).logged = []) := by
  refine ⟨?_, ?_, ?_⟩
  · intro p gops hwin
    have := grun_inv gops (yinit p) hwin ⟨rfl, by simp [yinit, sumLogged]⟩
    exact this.2
  · intro p ops
    obtain ⟨c, _, _, hsum⟩ := yrun_inv ops (yinit p) (yinit_inv p)
    omega
  · intro p x
    show (ystep (ystep (yinit p) (YOp.execDeposit x)) YOp.cycleEval).logged = []
    rw [ystep_execDeposit, ystep_cycleEval]
    simp [yinit, rule0Events_self]

theorem yield_total_amended_witness :
    sumLogged (grun 0 [GOp.yieldCycle 5]) = (grun 0 [GOp.yieldCycle 5]).interest :=
  yield_total_amended.1 0 [GOp.yieldCycle 5]
    (by
      intro y hy
      simp only [List.mem_singleton, GOp.yieldCycle.injEq] at hy
      rw [hy]
      decide)

/-- C4 counterexample: a delta of exactly 1.0 USDC (1000000 micro-units)
lies in the spec's half-open interval, yet the yield-detection rule
appends no RevenueEvent for it — the source's guard is strict at the
upper end (`yieldUsdc < 1.0`). -/
theorem yield_window_boundary_counterexample :
    specYieldWindow 1000000 = true ∧ rule0Events (some 0) 1000000 = [] := by
  constructor <;> rfl

/-- C4 (amended): when the current position exceeds the stored cursor, a
lending-yield RevenueEvent equal to the delta is appended iff the delta
lies in the OPEN interval (one micro-unit, one whole unit) of
stable-asset units — strictly more than 0.000001 and strictly less than
1.0 USDC — and no event is appended otherwise. -/
theorem yield_window_amended (prev pos : Nat) :
    rule0Events (some prev) pos =
      (if prev < pos ∧ 1 < pos - prev ∧ pos - prev < 1000000
       then [pos - prev] else []) := by
  by_cases h1 : prev < pos
  · by_cases h2 : 1 < pos - prev
    · by_cases h3 : pos - prev < 1000000
      · simp [rule0Events, yieldWindow, h1, h2, h3]
      · simp [rule0Events, yieldWindow, h1, h2, h3]
    · simp [rule0Events, yieldWindow, h1, h2]
  · simp [rule0Events, yieldWindow, h1]

/-- C8: whenever the liquid Aave-side USDC balance exceeds
`idleUsdcThreshold`, the idle-balance rule emits exactly one deposit
Decision of `balance - threshold / 2`, and none when the balance is at or
below the threshold; in particular balance 50 USDC with threshold 10 USDC
yields a deposit of 45 USDC. -/
theorem idle_deposit_correct (b t : Nat) :
    (t < b → rule1IdleDeposit b t = some (b - t / 2))
    ∧ (b ≤ t → rule1IdleDeposit b t = none)
    ∧ rule1IdleDeposit 50000000 10000000 = some 45000000 := by
  refine ⟨?_, ?_, by rfl⟩
  · intro h
    simp [rule1IdleDeposit, h]
  · intro h
    simp [rule1IdleDeposit]
    omega

theorem idle_deposit_correct_witness :
    rule1IdleDeposit 50000000 10000000 = some 45000000 :=
  (idle_deposit_correct 50000000 10000000).1 (by decide)

/-- C3: for every stake the resolution rule computes
`failedDays = durationDays - successfulDays` and a forfeiture of
`amount * 0.4` exactly when the asset is USDC and `failedDays > 0`, else
0; the successful execute closure appends exactly one ActionRecord
(successful), and a `treasury_slash` RevenueEvent carrying the forfeiture
iff the forfeiture is positive.  For the spec scenario (duration 10,
successfulDays 7, USDC, amount 100): failedDays 3, one successful
ActionRecord, one treasury_slash RevenueEvent of 40 USDC. -/
theorem resolve_rule_correct (s : StakeInfo) :
    resolveFailedDays s = (s.durationDays : Int) - (s.successfulDays : Int)
    ∧ resolveForfeiture s =
        (if s.isUSDC ∧ 0 < resolveFailedDays s
         then ((s.amount : ℚ) / 1000000) * (2 / 5) else 0)
    ∧ countActionRecords (resolveExecWrites s) = 1
    ∧ countSuccessActions (resolveExecWrites s) = 1
    ∧ treasurySlashEvents (resolveExecWrites s) =
        (if 0 < resolveForfeiture s then [resolveForfeiture s] else [])
    ∧ resolveFailedDays demoStake = 3
    ∧ resolveForfeiture demoStake = 40
    ∧ treasurySlashEvents (resolveExecWrites demoStake) = [40] := by
  have hgen : ∀ u : StakeInfo, treasurySlashEvents (resolveExecWrites u) =
      (if 0 < resolveForfeiture u then [resolveForfeiture u] else []) := by
    intro u
    by_cases h : 0 < resolveForfeiture u <;>
      simp [resolveExecWrites, treasurySlashEvents, h]
  have hf : resolveForfeiture demoStake = 40 := by
    norm_num [resolveForfeiture, resolveFailedDays, demoStake]
  refine ⟨rfl, ?_, ?_, ?_, hgen s, by decide, hf, ?_⟩
  · by_cases h1 : s.isUSDC <;> by_cases h2 : 0 < resolveFailedDays s <;>
      simp [resolveForfeiture, h1, h2]
  · by_cases h : 0 < resolveForfeiture s <;>
      simp [resolveExecWrites, countActionRecords, h]
  · by_cases h : 0 < resolveForfeiture s <;>
      simp [resolveExecWrites, countSuccessActions, h]
  · rw [hgen demoStake, hf]
    norm_num

/-- C5: the fixed model-inference CostEvent is appended exactly when the
rate-limit gate passes and the provider call completes, independently of
whether the response parses, validates, or yields a Decision; an
invocation within `llmCallIntervalMs` of a stored last-model-call
timestamp short-circuits with no Decision and no CostEvent. -/
theorem model_cost_invariant :
    (∀ (env : LlmEnv) (b p t : Nat), env.lastLlmCall = some t →
        (env.now : Int) - (t : Int) < (llmCallIntervalMs : Int) →
        llmDecision env b p =
          { decision := none, costs := [], lastLlmCall := env.lastLlmCall })
    ∧ (∀ (env : LlmEnv) (b p : Nat) (c : LlmContent), env.hasApiKey = true →
        llmGatePasses env.lastLlmCall env.now = true →
        env.providerResp = some c →
        (llmDecision env b p).costs = [LedgerWrite.cost "llm".toList (1 / 10000)])
    ∧ (∀ (env : LlmEnv) (b p : Nat), env.providerResp = none →
        (llmDecision env b p).costs = []) := by
  refine ⟨?_, ?_, ?_⟩
  · intro env b p t ht hlt
    have hgate : llmGatePasses env.lastLlmCall env.now = false := by
      rw [ht]
      simp [llmGatePasses, hlt]
    by_cases hk : env.hasApiKey <;> simp [llmDecision, hk, hgate]
  · intro env b p c hk hgate hresp
    simp [llmDecision, hk, hgate, hresp]
  · intro env b p hresp
    by_cases hk : env.hasApiKey
    · by_cases hgate : llmGatePasses env.lastLlmCall env.now <;>
        simp [llmDecision, hk, hgate, hresp]
    · simp [llmDecision, hk]

theorem model_cost_invariant_witness :
    llmDecision
      { hasApiKey := true, lastLlmCall := some 0, now := 1000,
        providerResp := some LlmContent.noContent } 0 0 =
      { decision := none, costs := [], lastLlmCall := some 0 } :=
  model_cost_invariant.1
    { hasApiKey := true, lastLlmCall := some 0, now := 1000,
      providerResp := some LlmContent.noContent } 0 0 0 rfl (by decide)

/-- C10: with no stored last-model-call timestamp the rate-limit gate
passes, so the first eligible invocation (API key configured) proceeds to
the provider call: a completed call logs the model-inference CostEvent
and stores the timestamp. -/
theorem first_call_gate_passes (env : LlmEnv) (b p : Nat) (c : LlmContent)
    (hk : env.hasApiKey = true) (hnone : env.lastLlmCall = none)
    (hresp : env.providerResp = some c) :
    llmGatePasses env.lastLlmCall env.now = true
    ∧ (llmDecision env b p).costs = [LedgerWrite.cost "llm".toList (1 / 10000)]
    ∧ (llmDecision env b p).lastLlmCall = some env.now := by
  have hgate : llmGatePasses env.lastLlmCall env.now = true := by
    rw [hnone]; rfl
  refine ⟨hgate, ?_, ?_⟩ <;> simp [llmDecision, hk, hgate, hresp]

theorem first_call_gate_passes_witness :
    llmGatePasses (LlmEnv.mk true none 5 (some LlmContent.unparsable)).lastLlmCall
        (LlmEnv.mk true none 5 (some LlmContent.unparsable)).now = true
    ∧ (llmDecision (LlmEnv.mk true none 5 (some LlmContent.unparsable)) 3 4).costs
        = [LedgerWrite.cost "llm".toList (1 / 10000)]
    ∧ (llmDecision (LlmEnv.mk true none 5 (some LlmContent.unparsable)) 3 4).lastLlmCall
        = some 5 :=
  first_call_gate_passes (LlmEnv.mk true none 5 (some LlmContent.unparsable))
    3 4 LlmContent.unparsable rfl rfl rfl

/-- C6: a Decision whose execution throws is recorded as a single failed
ActionRecord carrying a sanitized reason truncated to 120 characters
(prefixed "FAILED: "), and the cycle still attempts every remaining
Decision: the cycle's writes decompose around the failing Decision into
the writes of the Decisions before it, the failed record, and the writes
of the Decisions after it. -/
theorem decision_failure_isolated (ds₁ ds₂ : List DecisionM) (d : DecisionM)
    (e : ErrInfo) (h : d.outcome = ExecOutcome.err e) :
    runDecisionCycle (ds₁ ++ d :: ds₂) =
      runDecisionCycle ds₁ ++ [failedRecord d e] ++ runDecisionCycle ds₂
    ∧ failedRecord d e =
        LedgerWrite.action d.action ("FAILED: ".toList ++ sanitizeError e) 0 false
    ∧ (sanitizeError e).length ≤ 120 := by
  refine ⟨?_, rfl, ?_⟩
  · rw [runDecisionCycle_append]
    have : runDecisionCycle (d :: ds₂) = execWrites d ++ runDecisionCycle ds₂ := rfl
    rw [this]
    have hw : execWrites d = [failedRecord d e] := by
      simp [execWrites, h]
    rw [hw, List.append_assoc]
  · unfold sanitizeError
    cases e.shortMessage with
    | some s => simp [List.length_take]
    | none =>
        cases detailsAfter e.message with
        | some dl => simp [List.length_take]
        | none => simp [List.length_take]

theorem decision_failure_isolated_witness :
    runDecisionCycle
        [⟨"aave_supply".toList, ExecOutcome.err ⟨some "boom".toList, "raw".toList⟩⟩,
         ⟨"low_eth_warning".toList, ExecOutcome.ok [LedgerWrite.action "warning".toList "low".toList 0 true]⟩] =
      runDecisionCycle [] ++
        [failedRecord ⟨"aave_supply".toList, ExecOutcome.err ⟨some "boom".toList, "raw".toList⟩⟩
          ⟨some "boom".toList, "raw".toList⟩] ++
        runDecisionCycle
          [⟨"low_eth_warning".toList, ExecOutcome.ok [LedgerWrite.action "warning".toList "low".toList 0 true]⟩]
    ∧ failedRecord ⟨"aave_supply".toList, ExecOutcome.err ⟨some "boom".toList, "raw".toList⟩⟩
        ⟨some "boom".toList, "raw".toList⟩ =
        LedgerWrite.action "aave_supply".toList
          ("FAILED: ".toList ++ sanitizeError ⟨some "boom".toList, "raw".toList⟩) 0 false
    ∧ (sanitizeError ⟨some "boom".toList, "raw".toList⟩).length ≤ 120 :=
  decision_failure_isolated []
    [⟨"low_eth_warning".toList, ExecOutcome.ok [LedgerWrite.action "warning".toList "low".toList 0 true]⟩]
    ⟨"aave_supply".toList, ExecOutcome.err ⟨some "boom".toList, "raw".toList⟩⟩
    ⟨some "boom".toList, "raw".toList⟩ rfl

/-- C7: the discipline score equals
`round(successRate * 100 * (0.5 + 0.5 * min(totalDays / 30, 1)))`; it is
monotonically non-decreasing in the success rate at fixed `totalDays`,
bounded in [0, 100] on every input reachable from the aggregation, and 0
(not an error) at `totalDays = 0`. -/
theorem discipline_score_correct :
    (∀ (r : ℚ) (d : Nat), disciplineScore r d =
        round (r * 100 * (1 / 2 + 1 / 2 * min ((d : ℚ) / 30) 1)))
    ∧ (∀ (d : Nat) (r₁ r₂ : ℚ), r₁ ≤ r₂ →
        disciplineScore r₁ d ≤ disciplineScore r₂ d)
    ∧ (∀ s d : Nat, 0 ≤ disciplineScore (successRateOf s d) d ∧
        disciplineScore (successRateOf s d) d ≤ 100)
    ∧ (∀ s : Nat, disciplineScore (successRateOf s 0) 0 = 0) := by
  have hm0 : ∀ d : Nat, (0 : ℚ) ≤ min ((d : ℚ) / 30) 1 := by
    intro d
    exact le_min (by positivity) (by norm_num)
  have hm1 : ∀ d : Nat, min ((d : ℚ) / 30) 1 ≤ 1 := fun d => min_le_right _ _
  have h100 : round (100 : ℚ) = 100 := by
    rw [show (100 : ℚ) = ((100 : ℤ) : ℚ) by norm_num, round_intCast]
  refine ⟨fun r d => rfl, ?_, ?_, ?_⟩
  · intro d r₁ r₂ h
    unfold disciplineScore
    apply round_mono_q
    have hw : (0 : ℚ) ≤ 1 / 2 + 1 / 2 * min ((d : ℚ) / 30) 1 := by
      have := hm0 d
      linarith
    have h1 : r₁ * 100 ≤ r₂ * 100 :=
      mul_le_mul_of_nonneg_right h (by norm_num)
    exact mul_le_mul_of_nonneg_right h1 hw
  · intro s d
    have hr0 : 0 ≤ successRateOf s d := by
      unfold successRateOf
      split
      · exact le_min (by positivity) (by norm_num)
      · norm_num
    have hr1 : successRateOf s d ≤ 1 := by
      unfold successRateOf
      split
      · exact min_le_right _ _
      · norm_num
    have hw0 : (0 : ℚ) ≤ 1 / 2 + 1 / 2 * min ((d : ℚ) / 30) 1 := by
      have := hm0 d
      linarith
    have hw1 : 1 / 2 + 1 / 2 * min ((d : ℚ) / 30) 1 ≤ 1 := by
      have := hm1 d
      linarith
    have hx0 : (0 : ℚ) ≤ successRateOf s d * 100 *
        (1 / 2 + 1 / 2 * min ((d : ℚ) / 30) 1) :=
      mul_nonneg (mul_nonneg hr0 (by norm_num)) hw0
    have hx1 : successRateOf s d * 100 *
        (1 / 2 + 1 / 2 * min ((d : ℚ) / 30) 1) ≤ 100 := by
      have h1 : successRateOf s d * 100 ≤ 100 := by nlinarith
      nlinarith
    constructor
    · have := round_mono_q hx0
      rw [round_zero] at this
      exact this
    · have := round_mono_q hx1
      rw [h100] at this
      exact this
  · intro s
    have : successRateOf s 0 = 0 := by
      unfold successRateOf
      norm_num
    rw [this]
    unfold disciplineScore
    rw [zero_mul, zero_mul, round_zero]

theorem discipline_score_correct_witness :
    disciplineScore 0 30 ≤ disciplineScore 1 30 :=
  discipline_score_correct.2.1 30 0 1 (by norm_num)

/-- A syntactically valid all-lowercase wallet address (42 characters). -/
def walletA : List Char := "0x00000000000000000000000000000000000000aa".toList

/-- C9 counterexample: a request with a valid wallet address and a
payment-receipt header whose stake-history fetch throws appends NO
RevenueEvent (the handler answers 503 from its catch block), refuting
"appended exactly when the header is present and validation passed". -/
theorem attestation_revenue_counterexample :
    isAddress walletA = true
    ∧ (attestationHandler walletA true FetchOutcome.err).writes = []
    ∧ (attestationHandler walletA true FetchOutcome.err).status = 503 := by
  refine ⟨by decide, by decide, by decide⟩

/-- C9 (amended): a malformed wallet address yields HTTP 400 with no
ledger writes, and the fixed 0.01-USDC attestation RevenueEvent is
appended iff the payment-receipt header is present, the address
validation passed, AND the stake-history fetch succeeded. -/
theorem attestation_handler_amended (w : List Char) (h : Bool)
    (f : FetchOutcome) :
    (isAddress w = false →
      attestationHandler w h f = { status := 400, writes := [] })
    ∧ (LedgerWrite.revenue "x402_attestation".toList (1 / 100) ∈
          (attestationHandler w h f).writes
        ↔ isAddress w = true ∧ h = true ∧ ∃ st, f = FetchOutcome.ok st) := by
  constructor
  · intro hv
    simp [attestationHandler, hv]
  · by_cases hv : isAddress w
    · cases f with
      | err => simp [attestationHandler, hv]
      | ok st =>
          by_cases hh : h
          · simp [attestationHandler, hv, hh]
          · simp [attestationHandler, hv, hh]
    · simp [attestationHandler, hv]

theorem attestation_handler_amended_witness :
    attestationHandler "0xZZZ".toList true (FetchOutcome.ok []) =
      { status := 400, writes := [] } :=
  (attestation_handler_amended "0xZZZ".toList true (FetchOutcome.ok [])).1
    (by decide)
